import Mathlib

/-!
Verification of the `PaperTrader` position-lifecycle and risk-management engine
(`src/engines/paperTrader.js` of the polybot repository), against its design
specification.

JavaScript numbers are modelled as exact rationals (`ℚ`); nullable values as
`Option ℚ`; the engine's mutable `this.state` is threaded explicitly.  Each
definition mirrors one method (line references are to `paperTrader.js`), and
the per-tick `update` drives a reachability relation `ReachableAt` used for
the whole-system invariants.
-/

attribute [local semireducible] Rat.add Rat.mul Rat.sub Rat.inv

set_option maxRecDepth 1000000

set_option maxHeartbeats 2000000

/-- Does the character list `sub` occur at the head of the second list? -/
def strHeadMatch : List Char → List Char → Bool
  | [], _ => true
  | _ :: _, [] => false
  | a :: as, b :: bs => a == b && strHeadMatch as bs

/-- Does the character list `sub` occur anywhere in the second list? -/
def charsHas (sub : List Char) : List Char → Bool
  | [] => strHeadMatch sub []
  | b :: bs => strHeadMatch sub (b :: bs) || charsHas sub bs

/-- JavaScript `s.includes(sub)` on strings. -/
def strHas (s sub : String) : Bool := charsHas sub.toList s.toList

/-- JavaScript `x || d` for a number `x`: `d` when `x` is falsy (i.e. `0`). -/
def jsOr (x d : ℚ) : ℚ := if x = 0 then d else x

/-- JavaScript `x || null` for a nullable number `x` (`update`, lines 73-77). -/
def jsOrNull (x : Option ℚ) : Option ℚ :=
  match x with
  | some v => if v = 0 then none else some v
  | none => none

/-- Rendering of a number interpolated into a template-literal string (stands in
for JS number formatting; no modelled behaviour depends on the digits). -/
def ratStr (q : ℚ) : String := toString q.num ++ "/" ++ toString q.den

/-- An outcome side of a binary market. -/
inductive Side where
  | UP
  | DOWN
  deriving DecidableEq

/-- One open paper position (the objects pushed at line 413). -/
structure Position where
  marketSlug : String
  side : Side
  entryPrice : ℚ
  amount : ℚ
  shares : ℚ
  entryTime : ℚ
  hitBreakevenTrigger : Bool
  deriving DecidableEq

/-- One emitted trade record (the arguments of `logTrade`, line 52). -/
structure TradeEvent where
  action : String
  side : Side
  price : ℚ
  amount : ℚ
  shares : ℚ
  pnl : Option ℚ
  fee : ℚ
  marketSlug : String
  deriving DecidableEq

/-- The persisted engine state (`defaultState`, lines 16-27).  The legacy
scalar field `position` is read by the duplicate-position guard (line 284)
but is never assigned by this class; it is `none` in the default state. -/
structure LedgerState where
  balance : ℚ
  positions : List Position
  position : Option Position
  dailyLoss : ℚ
  lastStopLossTime : ℚ
  recentResults : List String
  lastDailyReset : ℚ
  lastExitTime : ℚ
  lastEntryTime : ℚ
  consecutiveLosses : Nat
  deriving DecidableEq

/-- The `CONFIG.paper` configuration surface (config.js). -/
structure PaperConfig where
  initialBalance : ℚ
  feePct : ℚ
  stopLossRoiPct : ℚ
  kellyFraction : ℚ
  minBet : ℚ
  maxBet : ℚ
  cooldownMinutes : ℚ
  entryCooldownSeconds : ℚ
  maxConcurrentPositions : ℚ
  dailyLossLimit : ℚ
  maxConsecutiveLosses : Nat
  minEntryPrice : ℚ
  maxEntryPrice : ℚ
  stopLossGracePeriodSeconds : ℚ
  deriving DecidableEq

/-- The shipped `CONFIG.paper` values (config.js, paper section). -/
def CONFIG : PaperConfig :=
  { initialBalance := 100
    feePct := 2
    stopLossRoiPct := 20
    kellyFraction := 1/4
    minBet := 5
    maxBet := 10
    cooldownMinutes := 2
    entryCooldownSeconds := 15
    maxConcurrentPositions := 2
    dailyLossLimit := 100
    maxConsecutiveLosses := 5
    minEntryPrice := 2/5
    maxEntryPrice := 3/5
    stopLossGracePeriodSeconds := 15 }

/-- Gregorian civil date `(year, month, day)` from a count of days since
1970-01-01 (Howard Hinnant's `civil_from_days`, written with floor
division). -/
def civilFromDays (z0 : ℤ) : ℤ × ℤ × ℤ :=
  let z := z0 + 719468
  let era := z.fdiv 146097
  let doe := z.emod 146097
  let yoe := (doe - doe.fdiv 1460 + doe.fdiv 36524 - doe.fdiv 146096).fdiv 365
  let y := yoe + era * 400
  let doy := doe - (365 * yoe + yoe.fdiv 4 - yoe.fdiv 100)
  let mp := (5 * doy + 2).fdiv 153
  let d := doy - (153 * mp + 2).fdiv 5 + 1
  let m := mp + (if mp < 10 then 3 else -9)
  (y + (if m ≤ 2 then 1 else 0), m, d)

/-- `new Date(ms).getUTCDate()`: the UTC day-of-month of an epoch-millisecond
timestamp. -/
def getUTCDate (ms : ℚ) : ℤ := (civilFromDays ((⌊ms⌋ : ℤ).fdiv 86400000)).2.2

/-- The full UTC calendar date `(year, month, day)` of an epoch-millisecond
timestamp (the specification's notion of "UTC calendar date"). -/
def utcCalendarDate (ms : ℚ) : ℤ × ℤ × ℤ := civilFromDays ((⌊ms⌋ : ℤ).fdiv 86400000)

/-- `resetDailyLossIfNeeded` (lines 94-104). -/
def resetDailyLossIfNeeded (now : ℚ) (st : LedgerState) : LedgerState :=
  let last := jsOr st.lastDailyReset 0
  if getUTCDate last ≠ getUTCDate now then
    { st with dailyLoss := 0, lastDailyReset := now }
  else st

/-- The price-normalization map `price > 1.05 ? price / 100 : price`
(lines 120, 197 and 207). -/
def normalizePrice (p : ℚ) : ℚ := if p > 21/20 then p / 100 else p

/-- `slice(-10)` on the recent-results list (lines 221 and 228). -/
def lastTen (l : List String) : List String := l.drop (l.length - 10)

/-- `closePosition` (lines 204-256): returns the new state and the emitted
trade record (`logTrade`, line 232). -/
def closePosition (cfg : PaperConfig) (now : ℚ) (st : LedgerState) (pos : Position)
    (exitPrice : ℚ) (reason : String) : LedgerState × TradeEvent :=
  let normalizedExit := normalizePrice exitPrice
  let proceeds0 := pos.shares * normalizedExit
  let fee := if reason ≠ "EXPIRY" ∧ reason ≠ "SETTLE" then proceeds0 * (cfg.feePct / 100) else 0
  let proceeds := proceeds0 - fee
  let pnl := proceeds - pos.amount
  let st1 :=
    if pnl < 0 then
      { st with
          balance := st.balance + proceeds
          dailyLoss := jsOr st.dailyLoss 0 + |pnl|
          recentResults := lastTen (st.recentResults ++ ["LOSS"])
          lastStopLossTime := if strHas reason "STOP_LOSS" then now else st.lastStopLossTime
          consecutiveLosses := st.consecutiveLosses + 1 }
    else
      { st with
          balance := st.balance + proceeds
          dailyLoss := jsOr st.dailyLoss 0 - pnl
          recentResults := lastTen (st.recentResults ++ ["WIN"])
          consecutiveLosses := 0 }
  ({ st1 with
      positions := st1.positions.filter (fun p => decide (p ≠ pos))
      lastExitTime := now },
   { action := reason, side := pos.side, price := exitPrice, amount := pos.amount,
     shares := pos.shares, pnl := some pnl, fee := fee, marketSlug := pos.marketSlug })

/-- The exit triggers of the per-position loop body (lines 131-168), evaluated
after breakeven arming. -/
def exitChecks (cfg : PaperConfig) (now : ℚ) (st : LedgerState) (pos : Position)
    (price normPrice roiPct : ℚ) (timeLeftMin : Option ℚ) : LedgerState × Option TradeEvent :=
  let slRoi := cfg.stopLossRoiPct
  let entryAgeSeconds := (now - pos.entryTime) / 1000
  let gracePeriod := jsOr cfg.stopLossGracePeriodSeconds 0
  if roiPct ≤ -slRoi then
    if entryAgeSeconds < gracePeriod then (st, none)
    else if pos.hitBreakevenTrigger ∧ roiPct < 0 then
      let r := closePosition cfg now st pos pos.entryPrice "STOP_LOSS_BREAKEVEN (Locked Entry)"
      (r.1, some r.2)
    else
      let r := closePosition cfg now st pos price ("STOP_LOSS (" ++ ratStr roiPct ++ "%)")
      (r.1, some r.2)
  else if pos.hitBreakevenTrigger ∧ roiPct ≤ 0 then
    let r := closePosition cfg now st pos pos.entryPrice "STOP_LOSS_BREAKEVEN (Protection)"
    (r.1, some r.2)
  else if (match timeLeftMin with
           | some t => decide (t ≤ 15/2 ∧ roiPct < 0)
           | none => false) then
    let r := closePosition cfg now st pos price ("HALF_TIME_EXIT (" ++ ratStr roiPct ++ "%)")
    (r.1, some r.2)
  else if normPrice ≥ 23/25 then
    let r := closePosition cfg now st pos price "TAKE_PROFIT_92 (Lock Win)"
    (r.1, some r.2)
  else if roiPct ≥ 80 then
    let r := closePosition cfg now st pos price ("TAKE_PROFIT_ROI_80 (+" ++ ratStr roiPct ++ "%)")
    (r.1, some r.2)
  else (st, none)

/-- One iteration of the exit-evaluation loop (lines 112-169) for one position:
market filter, price lookup, normalization, breakeven arming (an in-place
mutation of the position object, lines 124-129), then the exit cascade. -/
def exitStep (cfg : PaperConfig) (now : ℚ) (marketSlug : String)
    (priceUp priceDown timeLeftMin : Option ℚ) (st : LedgerState) (pos : Position) :
    LedgerState × Option TradeEvent :=
  if pos.marketSlug ≠ marketSlug then (st, none) else
  match (match pos.side with | Side.UP => priceUp | Side.DOWN => priceDown) with
  | none => (st, none)
  | some price =>
    let normPrice := normalizePrice price
    let roi := (normPrice - pos.entryPrice) / pos.entryPrice
    let roiPct := roi * 100
    if roiPct ≥ 30 ∧ ¬pos.hitBreakevenTrigger then
      let pos1 := { pos with hitBreakevenTrigger := true }
      let st1 := { st with positions := st.positions.map (fun p => if p = pos then pos1 else p) }
      exitChecks cfg now st1 pos1 price normPrice roiPct timeLeftMin
    else
      exitChecks cfg now st pos price normPrice roiPct timeLeftMin

/-- `checkExitConditions` (lines 106-170): iterate the loop body over a copy of
the open-position list, threading the state. -/
def checkExitConditions (cfg : PaperConfig) (now : ℚ) (marketSlug : String)
    (priceUp priceDown timeLeftMin : Option ℚ) (st : LedgerState) :
    LedgerState × List TradeEvent :=
  if st.positions = [] then (st, []) else
  st.positions.foldl
    (fun acc pos =>
      let r := exitStep cfg now marketSlug priceUp priceDown timeLeftMin acc.1 pos
      (r.1, acc.2 ++ (match r.2 with | some e => [e] | none => [])))
    (st, [])

/-- `checkResolution` (lines 172-187): on market expiry with strike and spot
present, force-close every position of the expired market at the binary
settlement payout. -/
def checkResolution (cfg : PaperConfig) (now : ℚ) (marketSlug : String)
    (isExpired : Bool) (strikePrice spotPrice : Option ℚ) (st : LedgerState) :
    LedgerState × List TradeEvent :=
  if st.positions = [] then (st, []) else
  match isExpired, strikePrice, spotPrice with
  | true, some strike, some spot =>
    st.positions.foldl
      (fun acc pos =>
        if pos.marketSlug ≠ marketSlug then acc
        else
          let win : Bool := match pos.side with
            | Side.UP => decide (spot ≥ strike)
            | Side.DOWN => decide (spot < strike)
          let r := closePosition cfg now acc.1 pos (if win then 1 else 0)
              ("EXPIRY (Spot: " ++ ratStr spot ++ ", Strike: " ++ ratStr strike ++ ")")
          (r.1, acc.2 ++ [r.2]))
      (st, [])
  | _, _, _ => (st, [])

/-- The position-sizing computation of `handleEntrySignal` (lines 349-392):
base unit, fractional-Kelly sizing when a win probability is given (truthy),
`minBet` fallback on non-positive Kelly fraction.  (The win-rate computed at
lines 335-338 is unused: dynamic sizing was removed, line 350.) -/
def sizeFor (cfg : PaperConfig) (probability : Option ℚ)
    (normalizedPrice balance : ℚ) : ℚ :=
  let baseUnit := cfg.maxBet
  match probability with
  | some p =>
    if p ≠ 0 then
      let q := 1 - p
      let b := (1 - normalizedPrice) / normalizedPrice
      let f := (p - q / b) * cfg.kellyFraction
      if f > 0 then
        let size0 := balance * f
        let size1 := if size0 < cfg.minBet then cfg.minBet else size0
        let size2 := if size1 > baseUnit then baseUnit else size1
        let size3 := if size2 > balance then balance else size2
        size3
      else cfg.minBet
    else baseUnit
  | none => baseUnit

/-- The flip-flop (reversal) block of `handleEntrySignal` (lines 394-403):
when the first same-market position holds the opposite side, close every
same-market position at the quoted price of the NEW side, reason
`FLIP_CLOSE`.  `newSidePrice` is the value of
`side === "UP" ? priceUp : priceDown` (line 400), i.e. the same selection
that produced the entry quote, which is non-null on this path. -/
def flipPhase (cfg : PaperConfig) (now : ℚ) (side : Side) (marketSlug : String)
    (newSidePrice : ℚ) (st : LedgerState) : LedgerState × List TradeEvent :=
  let marketPositions := st.positions.filter (fun p => decide (p.marketSlug = marketSlug))
  match marketPositions with
  | [] => (st, [])
  | mp0 :: _ =>
    if mp0.side ≠ side then
      marketPositions.foldl
        (fun acc pos =>
          let r := closePosition cfg now acc.1 pos newSidePrice "FLIP_CLOSE"
          (r.1, acc.2 ++ [r.2]))
        (st, [])
    else (st, [])

/-- The open block of `handleEntrySignal` (lines 405-443): open a new position
when below the concurrency cap and `balance >= tradeAmount`, debiting
`tradeAmount` plus the proportional entry fee. -/
def openPath (cfg : PaperConfig) (now : ℚ) (side : Side) (marketSlug : String)
    (entryPrice normalizedPrice tradeAmount : ℚ) (st : LedgerState) :
    LedgerState × List TradeEvent :=
  let maxPos := jsOr cfg.maxConcurrentPositions 2
  if (st.positions.length : ℚ) < maxPos ∧ st.balance ≥ tradeAmount then
    let shares := tradeAmount / normalizedPrice
    let fee := tradeAmount * (cfg.feePct / 100)
    let totalCost := tradeAmount + fee
    let newPos : Position :=
      { marketSlug := marketSlug, side := side, entryPrice := normalizedPrice,
        amount := totalCost, shares := shares, entryTime := now,
        hitBreakevenTrigger := false }
    ({ st with
        balance := st.balance - totalCost
        positions := st.positions ++ [newPos]
        lastEntryTime := now },
     [{ action := "OPEN", side := side, price := entryPrice, amount := tradeAmount,
        shares := shares, pnl := none, fee := fee, marketSlug := marketSlug }])
  else (st, [])

/-- `handleEntrySignal` (lines 258-444): price safety, the ordered entry
filters, sizing, the flip block, then the open block. -/
def handleEntrySignal (cfg : PaperConfig) (now : ℚ) (probability : Option ℚ)
    (side : Side) (marketSlug : String) (priceUp priceDown : Option ℚ)
    (trend : String) (st : LedgerState) : LedgerState × List TradeEvent :=
  match (match side with | Side.UP => priceUp | Side.DOWN => priceDown) with
  | none => (st, [])
  | some entryPrice =>
    if entryPrice ≤ 0 ∨ entryPrice ≥ 1 then (st, []) else
    let normalizedPrice := if entryPrice > 1 then entryPrice / 100 else entryPrice
    if normalizedPrice < cfg.minEntryPrice ∨ normalizedPrice > cfg.maxEntryPrice then (st, []) else
    if st.consecutiveLosses ≥ cfg.maxConsecutiveLosses then (st, []) else
    if (match st.position with
        | some cp => decide (cp.marketSlug = marketSlug)
        | none => false) then (st, []) else
    if jsOr st.dailyLoss 0 ≥ cfg.dailyLossLimit then (st, []) else
    if st.lastStopLossTime ≠ 0 ∧ (now - st.lastStopLossTime) / 60000 < cfg.cooldownMinutes then
      (st, []) else
    if st.lastEntryTime ≠ 0 ∧ now - st.lastEntryTime < jsOr cfg.entryCooldownSeconds 15 * 1000 then
      (st, []) else
    if trend = "FALLING" ∧ side = Side.UP then (st, []) else
    if trend = "RISING" ∧ side = Side.DOWN then (st, []) else
    let tradeAmount := sizeFor cfg probability normalizedPrice st.balance
    let r1 := flipPhase cfg now side marketSlug entryPrice st
    let r2 := openPath cfg now side marketSlug entryPrice normalizedPrice tradeAmount r1.1
    (r2.1, r1.2 ++ r2.2)

/-- The per-tick input of `update` (line 67): market snapshot, prices on either
scale, the recommendation/signal fields, and the trend label. -/
structure TickInput where
  marketSlug : String
  action : String
  side : Side
  probability : Option ℚ
  isExpired : Bool
  strikePrice : Option ℚ
  spotPrice : Option ℚ
  timeLeftMin : Option ℚ
  priceUp : Option ℚ
  priceDown : Option ℚ
  trend : String
  deriving DecidableEq

/-- `update` (lines 67-92), one tick: daily reset, resolution check, exit
checks, then the entry signal when the action is `ENTER`. -/
def update (cfg : PaperConfig) (now : ℚ) (inp : TickInput) (st : LedgerState) :
    LedgerState × List TradeEvent :=
  let st0 := resetDailyLossIfNeeded now st
  let r1 := checkResolution cfg now inp.marketSlug inp.isExpired
      (jsOrNull inp.strikePrice) (jsOrNull inp.spotPrice) st0
  let r2 := checkExitConditions cfg now inp.marketSlug inp.priceUp inp.priceDown
      inp.timeLeftMin r1.1
  if inp.action = "ENTER" then
    let r3 := handleEntrySignal cfg now inp.probability inp.side inp.marketSlug
        inp.priceUp inp.priceDown inp.trend r2.1
    (r3.1, r1.2 ++ r2.2 ++ r3.2)
  else (r2.1, r1.2 ++ r2.2)

/-- The default (fresh) persisted state (`loadState`, lines 16-27), with
`lastDailyReset = Date.now()` at load time. -/
def defaultState (cfg : PaperConfig) (now : ℚ) : LedgerState :=
  { balance := cfg.initialBalance, positions := [], position := none, dailyLoss := 0,
    lastStopLossTime := 0, recentResults := [], lastDailyReset := now,
    lastExitTime := 0, lastEntryTime := 0, consecutiveLosses := 0 }

/-- Reachability of a ledger state under the shipped configuration: a fresh
default state at some load time, followed by any sequence of ticks at
strictly increasing times. -/
inductive ReachableAt : ℚ → LedgerState → Prop where
  | init (t0 : ℚ) : ReachableAt t0 (defaultState CONFIG t0)
  | step {t : ℚ} {s : LedgerState} (t' : ℚ) (inp : TickInput) :
      ReachableAt t s → t < t' → ReachableAt t' (update CONFIG t' inp s).1

/-- Run a list of timestamped ticks from a state (states only). -/
def runFrom (s : LedgerState) : List (ℚ × TickInput) → LedgerState
  | [] => s
  | (t, inp) :: rest => runFrom (update CONFIG t inp s).1 rest

/-- All tick times strictly increase, starting after `t`. -/
def stepsAfter (t : ℚ) : List (ℚ × TickInput) → Bool
  | [] => true
  | (t1, _) :: rest => decide (t < t1) && stepsAfter t1 rest

/-- The time of the last tick of a run (or the start time for an empty run). -/
def endTime (t : ℚ) : List (ℚ × TickInput) → ℚ
  | [] => t
  | (t1, _) :: rest => endTime t1 rest

theorem reachableAt_runFrom :
    ∀ (l : List (ℚ × TickInput)) (t : ℚ) (s : LedgerState),
      ReachableAt t s → stepsAfter t l = true → ReachableAt (endTime t l) (runFrom s l) := by
  intro l
  induction l with
  | nil => intro t s h _; exact h
  | cons hd tl ih =>
    intro t s h hsteps
    obtain ⟨t1, inp⟩ := hd
    simp only [stepsAfter, Bool.and_eq_true, decide_eq_true_eq] at hsteps
    exact ih t1 _ (ReachableAt.step t1 inp h hsteps.1) hsteps.2

def tickTime (k : Nat) : ℚ := 1704067200000 + k * 300000

def tickE10 : TickInput :=
  { marketSlug := "m", action := "ENTER", side := Side.UP, probability := none,
    isExpired := false, strikePrice := none, spotPrice := none, timeLeftMin := none,
    priceUp := some (1/2), priceDown := none, trend := "NEUTRAL" }

def tickE5 : TickInput := { tickE10 with probability := some (3/10) }

def tickRupLose : TickInput :=
  { marketSlug := "m", action := "HOLD", side := Side.UP, probability := none,
    isExpired := true, strikePrice := some 60000, spotPrice := some 59000, timeLeftMin := none,
    priceUp := none, priceDown := none, trend := "NEUTRAL" }

def tickRdownLose : TickInput := { tickRupLose with spotPrice := some 60050 }

def tickF10 : TickInput :=
  { marketSlug := "m", action := "ENTER", side := Side.DOWN, probability := none,
    isExpired := false, strikePrice := none, spotPrice := none, timeLeftMin := none,
    priceUp := some (1/2), priceDown := some (51/98), trend := "NEUTRAL" }

def tickF5 : TickInput := { tickF10 with probability := some (3/10) }

def tickX : TickInput :=
  { marketSlug := "m", action := "HOLD", side := Side.UP, probability := none,
    isExpired := false, strikePrice := none, spotPrice := none, timeLeftMin := none,
    priceUp := some (1/5), priceDown := none, trend := "NEUTRAL" }

def c1Trace : List (ℚ × TickInput) :=
  [ (tickTime 1, tickE10), (tickTime 2, tickRupLose),
    (tickTime 3, tickE10), (tickTime 4, tickRupLose),
    (tickTime 5, tickE10), (tickTime 6, tickRupLose),
    (tickTime 7, tickE10), (tickTime 8, tickRupLose),
    (tickTime 9, tickE10), (tickTime 10, tickF10),
    (tickTime 11, tickRdownLose),
    (tickTime 12, tickE10), (tickTime 13, tickRupLose),
    (tickTime 14, tickE10), (tickTime 15, tickRupLose),
    (tickTime 16, tickE10), (tickTime 17, tickRupLose),
    (tickTime 18, tickE5), (tickTime 19, tickF5),
    (tickTime 20, tickRdownLose),
    (tickTime 21, tickE5), (tickTime 22, tickX),
    (tickTime 23, tickE5), (tickTime 24, tickE5) ]

def c5Trace : List (ℚ × TickInput) := [(tickTime 1, tickE10), (tickTime 2, tickE10)]

/-- The first position opened by the `c5Trace` run. -/
def c5PosA : Position :=
  { marketSlug := "m", side := Side.UP, entryPrice := 1/2, amount := 51/5, shares := 20,
    entryTime := tickTime 1, hitBreakevenTrigger := false }

/-- The second position opened by the `c5Trace` run: same market, same side. -/
def c5PosB : Position := { c5PosA with entryTime := tickTime 2 }

/-- C1 counterexample: the balance of a reachable ledger state can go strictly
negative, so an entry whose cost basis (trade amount plus entry fee) exceeds
the balance is NOT always rejected: the open gate (line 407) compares the
balance against the pre-fee trade amount but debits the amount plus fee. -/
theorem c1_counterexample :
    ∃ (t : ℚ) (s : LedgerState), ReachableAt t s ∧ s.balance < 0 := by
  refine ⟨endTime (tickTime 0) c1Trace, runFrom (defaultState CONFIG (tickTime 0)) c1Trace,
    reachableAt_runFrom c1Trace (tickTime 0) _ (ReachableAt.init (tickTime 0)) (by decide), ?_⟩
  decide

/-- C5 counterexample: a reachable state holds two distinct open positions with
the same market and the same side (the duplicate guard at line 284 reads the
never-assigned legacy field `state.position`, and the flip block only reacts
to the opposite side, so a second same-side entry stacks). -/
theorem c5_counterexample :
    ∃ (t : ℚ) (s : LedgerState) (p q : Position),
      ReachableAt t s ∧ p ∈ s.positions ∧ q ∈ s.positions ∧ p ≠ q
        ∧ p.marketSlug = q.marketSlug ∧ p.side = q.side := by
  refine ⟨endTime (tickTime 0) c5Trace, runFrom (defaultState CONFIG (tickTime 0)) c5Trace,
    c5PosA, c5PosB,
    reachableAt_runFrom c5Trace (tickTime 0) _ (ReachableAt.init (tickTime 0)) (by decide),
    by decide, by decide, by decide, rfl, rfl⟩

/-- Scenario D's open UP position (entry 0.5, $10 + $0.20 fee, 20 shares). -/
def scenDPos : Position :=
  { marketSlug := "m", side := Side.UP, entryPrice := 1/2, amount := 51/5, shares := 20,
    entryTime := 0, hitBreakevenTrigger := false }

/-- A ledger state holding only `scenDPos`. -/
def scenDState : LedgerState :=
  { defaultState CONFIG 0 with balance := 449/5, positions := [scenDPos] }

/-- C2 (code bug): on expiry with strike 60000 and spot 60050 the open UP
position is force-closed as a win at the binary payout 1.0 per share, but an
exit fee of 2% of the proceeds (0.4 of 20.0) IS deducted, crediting 19.6
instead of 20: the fee exemption (line 211) tests `reason !== "EXPIRY"`,
while the reason string passed at line 184 is `EXPIRY (Spot: ..., Strike:
...)`, which never equals `"EXPIRY"`. -/
theorem c2_expiry_fee_bug :
    (checkResolution CONFIG 1000 "m" true (some 60000) (some 60050) scenDState).2.length = 1
    ∧ (∀ e ∈ (checkResolution CONFIG 1000 "m" true (some 60000) (some 60050) scenDState).2,
        e.price = 1 ∧ e.fee = 2/5 ∧ e.fee ≠ 0)
    ∧ (checkResolution CONFIG 1000 "m" true (some 60000) (some 60050) scenDState).1.positions = []
    ∧ (checkResolution CONFIG 1000 "m" true (some 60000) (some 60050) scenDState).1.balance
        = 449/5 + 98/5 := by
  decide

/-- The armed variant of `scenDPos` (its breakeven trigger has fired). -/
def armedPos : Position := { scenDPos with hitBreakevenTrigger := true }

/-- A ledger state holding only `armedPos`. -/
def armedState : LedgerState :=
  { defaultState CONFIG 0 with balance := 449/5, positions := [armedPos] }

/-- C3 counterexample: a position whose breakeven flag is armed is still
force-closed at price 0 by a losing expiry settlement (the settlement path,
lines 172-187, ignores `hitBreakevenTrigger`), realizing the full loss below
the entry price. -/
theorem c3_counterexample :
    armedPos.hitBreakevenTrigger = true
    ∧ (checkResolution CONFIG 1000 "m" true (some 60000) (some 59000) armedState).2.length = 1
    ∧ (∀ e ∈ (checkResolution CONFIG 1000 "m" true (some 60000) (some 59000) armedState).2,
        e.price = 0 ∧ e.price < armedPos.entryPrice ∧ e.pnl = some (-(51/5))) := by
  decide

/-- C6 counterexample: with the probability absent and balance 3, the sizing
computation returns `maxBet = 10`, outside `[0, balance]`; likewise the
non-positive-Kelly fallback returns `minBet = 5 > 3`.  Neither fallback is
clamped by the balance. -/
theorem c6_counterexample :
    sizeFor CONFIG none (1/2) 3 = 10 ∧ ¬sizeFor CONFIG none (1/2) 3 ≤ 3
    ∧ sizeFor CONFIG (some (3/10)) (1/2) 3 = 5 ∧ ¬sizeFor CONFIG (some (3/10)) (1/2) 3 ≤ 3 := by
  decide

/-- C7 counterexample: an ENTER tick whose quote arrives on the cents scale
(50, i.e. $0.50) is rejected outright by the price-safety guard
`entryPrice >= 1` (line 263), which runs BEFORE the normalization at line
264; the equivalent normalized quote 0.5 opens a position.  The entry path
therefore does not behave as it would for the normalized price. -/
theorem c7_counterexample :
    handleEntrySignal CONFIG (tickTime 1) none Side.UP "m" (some 50) none "NEUTRAL"
        (defaultState CONFIG (tickTime 0))
      = (defaultState CONFIG (tickTime 0), [])
    ∧ (handleEntrySignal CONFIG (tickTime 1) none Side.UP "m" (some (1/2)) none "NEUTRAL"
        (defaultState CONFIG (tickTime 0))).1.positions ≠ []
    ∧ (handleEntrySignal CONFIG (tickTime 1) none Side.UP "m" (some (1/2)) none "NEUTRAL"
        (defaultState CONFIG (tickTime 0))).2 ≠ [] := by
  decide

/-- 2024-01-05T00:00:00Z in epoch milliseconds. -/
def jan5ms : ℚ := 19727 * 86400000

/-- 2024-02-05T00:00:00Z in epoch milliseconds. -/
def feb5ms : ℚ := 19758 * 86400000

/-- C8 counterexample: 2024-01-05 and 2024-02-05 are different UTC calendar
dates, but the reset compares only `getUTCDate()` (the day-of-month, line
98), which is 5 for both, so the daily loss accumulator is NOT zeroed. -/
theorem c8_counterexample :
    utcCalendarDate jan5ms ≠ utcCalendarDate feb5ms
    ∧ resetDailyLossIfNeeded feb5ms { defaultState CONFIG jan5ms with dailyLoss := 7 }
        = { defaultState CONFIG jan5ms with dailyLoss := 7 }
    ∧ ({ defaultState CONFIG jan5ms with dailyLoss := 7 } : LedgerState).dailyLoss ≠ 0 := by
  decide

/-- C4 counterexample: flipping an UP position on an ENTER DOWN signal with
priceUp = 0.55 and priceDown = 0.45 closes the held UP position at 0.45 —
the quoted price of the NEW side (line 400 selects `side === "UP" ? priceUp
: priceDown` with `side` the incoming side) — not at the held position's own
side price 0.55. -/
theorem c4_counterexample :
    (handleEntrySignal CONFIG (tickTime 1) none Side.DOWN "m" (some (11/20)) (some (9/20))
        "NEUTRAL" { defaultState CONFIG 0 with balance := 50, positions := [scenDPos] }).2.length
      = 2
    ∧ (∀ e ∈ (handleEntrySignal CONFIG (tickTime 1) none Side.DOWN "m" (some (11/20))
          (some (9/20)) "NEUTRAL"
          { defaultState CONFIG 0 with balance := 50, positions := [scenDPos] }).2.take 1,
        e.action = "FLIP_CLOSE" ∧ e.price = 9/20 ∧ e.price ≠ 11/20)
    ∧ (∀ e ∈ (handleEntrySignal CONFIG (tickTime 1) none Side.DOWN "m" (some (11/20))
          (some (9/20)) "NEUTRAL"
          { defaultState CONFIG 0 with balance := 50, positions := [scenDPos] }).2.drop 1,
        e.action = "OPEN" ∧ e.side = Side.DOWN) := by
  decide

/-- C9: the price-normalization map is the identity at or below 1.05; above
1.05 and within the cents scale `[0, 100]` it divides by 100, landing in
`(0, 1]`; consequently it is idempotent on `(-∞, 100]`. -/
theorem c9_normalization :
    (∀ p : ℚ, p ≤ 21/20 → normalizePrice p = p)
    ∧ (∀ p : ℚ, 21/20 < p → p ≤ 100 →
        normalizePrice p = p / 100 ∧ 0 < normalizePrice p ∧ normalizePrice p ≤ 1)
    ∧ (∀ p : ℚ, p ≤ 100 → normalizePrice (normalizePrice p) = normalizePrice p) := by
  refine ⟨fun p hp => ?_, fun p h1 h2 => ?_, fun p hp => ?_⟩
  · unfold normalizePrice
    rw [if_neg (by linarith)]
  · unfold normalizePrice
    rw [if_pos h1]
    exact ⟨rfl, by linarith, by linarith⟩
  · unfold normalizePrice
    by_cases h : p > 21/20
    · rw [if_pos h, if_neg (by linarith)]
    · rw [if_neg h, if_neg h]

/-- Witness for `c9_normalization` at the concrete inputs 0.5 and 50. -/
theorem c9_witness :
    ((1:ℚ)/2 ≤ 21/20 ∧ normalizePrice (1/2) = 1/2)
    ∧ (21/20 < (50:ℚ) ∧ (50:ℚ) ≤ 100
        ∧ (normalizePrice 50 = 50/100 ∧ 0 < normalizePrice 50 ∧ normalizePrice 50 ≤ 1))
    ∧ normalizePrice (normalizePrice 50) = normalizePrice 50 :=
  ⟨⟨by decide, c9_normalization.1 (1/2) (by decide)⟩,
   ⟨by decide, by decide, c9_normalization.2.1 50 (by decide) (by decide)⟩,
   c9_normalization.2.2 50 (by decide)⟩

/-- C8 amended: the daily reset fires exactly when the UTC day-of-month of
`now` differs from that of `lastDailyReset` (zeroing the accumulator and
updating `lastDailyReset`); when the full UTC calendar date is unchanged
(in particular within the same UTC day) it is a no-op, so it is idempotent
within a day — but a date change that lands on the same day-of-month does
not reset (see the counterexample). -/
theorem c8_amended (now : ℚ) (st : LedgerState) :
    (getUTCDate (jsOr st.lastDailyReset 0) ≠ getUTCDate now →
      (resetDailyLossIfNeeded now st).dailyLoss = 0
        ∧ (resetDailyLossIfNeeded now st).lastDailyReset = now)
    ∧ (utcCalendarDate (jsOr st.lastDailyReset 0) = utcCalendarDate now →
      resetDailyLossIfNeeded now st = st) := by
  constructor
  · intro h
    unfold resetDailyLossIfNeeded
    rw [if_pos h]
    exact ⟨rfl, rfl⟩
  · intro h
    unfold resetDailyLossIfNeeded
    rw [if_neg ?_]
    intro hne
    exact hne (congrArg (fun d => d.2.2) h)

/-- Witness for `c8_amended`: a next-day timestamp resets, and a same-day
timestamp is a no-op, on a fresh state loaded at 2024-01-05T00:00Z. -/
theorem c8_witness :
    (getUTCDate (jsOr (defaultState CONFIG jan5ms).lastDailyReset 0) ≠ getUTCDate (jan5ms + 86400000)
      ∧ (resetDailyLossIfNeeded (jan5ms + 86400000) (defaultState CONFIG jan5ms)).dailyLoss = 0
      ∧ (resetDailyLossIfNeeded (jan5ms + 86400000) (defaultState CONFIG jan5ms)).lastDailyReset
          = jan5ms + 86400000)
    ∧ (utcCalendarDate (jsOr (defaultState CONFIG jan5ms).lastDailyReset 0)
          = utcCalendarDate (jan5ms + 1000)
      ∧ resetDailyLossIfNeeded (jan5ms + 1000) (defaultState CONFIG jan5ms)
          = defaultState CONFIG jan5ms) :=
  ⟨⟨by decide, (c8_amended (jan5ms + 86400000) (defaultState CONFIG jan5ms)).1 (by decide)⟩,
   ⟨by decide, (c8_amended (jan5ms + 1000) (defaultState CONFIG jan5ms)).2 (by decide)⟩⟩

/-- C1 amended: the open block debits exactly the cost basis (trade amount plus
the proportional entry fee), but its affordability gate (line 407) compares
the balance against the PRE-FEE trade amount only; an accepted open can
therefore overdraw the balance by up to the entry fee, and the post-open
balance is bounded below by minus that fee (so it can be negative, as the
counterexample realizes). -/
theorem c1_amended (st : LedgerState) (side : Side) (mslug : String)
    (ep np a now : ℚ)
    (hcap : (st.positions.length : ℚ) < jsOr CONFIG.maxConcurrentPositions 2)
    (hbal : st.balance ≥ a) :
    (openPath CONFIG now side mslug ep np a st).1.balance
        = st.balance - (a + a * (CONFIG.feePct / 100))
      ∧ (openPath CONFIG now side mslug ep np a st).1.balance
        ≥ -(a * (CONFIG.feePct / 100)) := by
  unfold openPath
  rw [if_pos ⟨hcap, hbal⟩]
  refine ⟨rfl, ?_⟩
  show st.balance - (a + a * (CONFIG.feePct / 100)) ≥ -(a * (CONFIG.feePct / 100))
  linarith

/-- Witness for `c1_amended`: a fresh state opening a 10-unit trade is debited
10.2 and keeps a non-negative balance. -/
theorem c1_witness :
    (((defaultState CONFIG 0).positions.length : ℚ) < jsOr CONFIG.maxConcurrentPositions 2
        ∧ (defaultState CONFIG 0).balance ≥ 10)
    ∧ ((openPath CONFIG 5 Side.UP "m" (1/2) (1/2) 10 (defaultState CONFIG 0)).1.balance
        = (defaultState CONFIG 0).balance - (10 + 10 * (CONFIG.feePct / 100))
      ∧ (openPath CONFIG 5 Side.UP "m" (1/2) (1/2) 10 (defaultState CONFIG 0)).1.balance
        ≥ -(10 * (CONFIG.feePct / 100))) :=
  ⟨⟨by decide, by decide⟩,
   c1_amended (defaultState CONFIG 0) Side.UP "m" (1/2) (1/2) 10 5 (by decide) (by decide)⟩

/-- In the exit cascade, an armed position with non-positive ROI is only ever
closed at its entry price: the armed stop-loss branch and the breakeven
protection branch both pass `entryPrice`, and the half-time/take-profit
branches are unreachable there. -/
theorem exitChecks_breakeven_floor (now : ℚ) (st : LedgerState) (pos : Position)
    (price normPrice roiPct : ℚ) (timeLeftMin : Option ℚ)
    (harmed : pos.hitBreakevenTrigger = true) (hroi : roiPct ≤ 0) (ev : TradeEvent)
    (hev : (exitChecks CONFIG now st pos price normPrice roiPct timeLeftMin).2 = some ev) :
    ev.price = pos.entryPrice := by
  have hsl : CONFIG.stopLossRoiPct = 20 := rfl
  unfold exitChecks at hev
  by_cases h1 : roiPct ≤ -CONFIG.stopLossRoiPct
  · rw [if_pos h1] at hev
    by_cases h2 : (now - pos.entryTime) / 1000 < jsOr CONFIG.stopLossGracePeriodSeconds 0
    · rw [if_pos h2] at hev
      exact absurd hev (by simp)
    · rw [if_neg h2, if_pos ⟨harmed, by rw [hsl] at h1; linarith⟩] at hev
      injection hev with h
      rw [← h]
      rfl
  · rw [if_neg h1, if_pos ⟨harmed, hroi⟩] at hev
    injection hev with h
    rw [← h]
    rfl

/-- C3 amended: within the per-tick exit evaluation (`checkExitConditions`),
once a position is armed, any close of it with non-positive ROI happens at
the entry price.  The floor does NOT extend to flip closes or expiry
settlements (see the counterexample), which ignore the armed flag. -/
theorem c3_amended (now : ℚ) (mslug : String) (priceUp priceDown timeLeftMin : Option ℚ)
    (st : LedgerState) (pos : Position) (price : ℚ)
    (hsel : (match pos.side with | Side.UP => priceUp | Side.DOWN => priceDown) = some price)
    (harmed : pos.hitBreakevenTrigger = true)
    (hroi : (normalizePrice price - pos.entryPrice) / pos.entryPrice * 100 ≤ 0)
    (ev : TradeEvent)
    (hev : (exitStep CONFIG now mslug priceUp priceDown timeLeftMin st pos).2 = some ev) :
    ev.price = pos.entryPrice := by
  unfold exitStep at hev
  by_cases hm : pos.marketSlug ≠ mslug
  · rw [if_pos hm] at hev
    exact absurd hev (by simp)
  · rw [if_neg hm, hsel] at hev
    simp only [harmed, not_true_eq_false, and_false, if_false] at hev
    exact exitChecks_breakeven_floor now st pos price _ _ timeLeftMin harmed hroi ev hev

/-- The exit-step close event produced for `armedPos` at price 0.45. -/
def c3Ev : TradeEvent :=
  { action := "STOP_LOSS_BREAKEVEN (Protection)", side := Side.UP, price := 1/2,
    amount := 51/5, shares := 20, pnl := some (-(2/5)), fee := 1/5, marketSlug := "m" }

/-- Witness for `c3_amended`: the armed position marked at 0.45 (ROI -10%) is
closed by breakeven protection at its entry price 0.5. -/
theorem c3_witness :
    armedPos.hitBreakevenTrigger = true
    ∧ (normalizePrice (9/20) - armedPos.entryPrice) / armedPos.entryPrice * 100 ≤ 0
    ∧ (exitStep CONFIG 1000 "m" (some (9/20)) none none armedState armedPos).2 = some c3Ev
    ∧ c3Ev.price = armedPos.entryPrice :=
  ⟨rfl, by decide, by decide,
   c3_amended 1000 "m" (some (9/20)) none none armedState armedPos (9/20) rfl rfl
     (by decide) c3Ev (by decide)⟩

/-- A fold of `closePosition` over a list of positions emits exactly one trade
record per position. -/
theorem closeFold_len (cfg : PaperConfig) (now price : ℚ) (reason : String) :
    ∀ (l : List Position) (acc : LedgerState × List TradeEvent),
      ((l.foldl (fun acc pos =>
          let r := closePosition cfg now acc.1 pos price reason
          (r.1, acc.2 ++ [r.2])) acc).2).length = acc.2.length + l.length := by
  intro l
  induction l with
  | nil => intro acc; simp
  | cons hd tl ih =>
    intro acc
    simp only [List.foldl_cons]
    rw [ih]
    simp only [List.length_append, List.length_cons, List.length_nil]
    omega

/-- Every trade record emitted by a fold of `closePosition` carries the given
reason and exit price. -/
theorem closeFold_events (cfg : PaperConfig) (now price : ℚ) (reason : String) :
    ∀ (l : List Position) (acc : LedgerState × List TradeEvent),
      (∀ e ∈ acc.2, e.action = reason ∧ e.price = price) →
      ∀ e ∈ ((l.foldl (fun acc pos =>
          let r := closePosition cfg now acc.1 pos price reason
          (r.1, acc.2 ++ [r.2])) acc).2), e.action = reason ∧ e.price = price := by
  intro l
  induction l with
  | nil => intro acc hacc; exact hacc
  | cons hd tl ih =>
    intro acc hacc
    simp only [List.foldl_cons]
    refine ih _ ?_
    intro e he
    rcases List.mem_append.mp he with h | h
    · exact hacc e h
    · rcases List.mem_singleton.mp h with rfl
      exact ⟨rfl, rfl⟩

/-- C4 amended: when a qualifying ENTER signal (all entry filters pass) carries
the side opposite to the existing same-market positions, the engine closes
each of them with reason `FLIP_CLOSE` at the quoted price of the NEW
(incoming) side — not at the held position's own side price — and then
proceeds through the normal open path for the new side. -/
theorem c4_amended (now : ℚ) (prob : Option ℚ) (side : Side) (mslug : String)
    (priceUp priceDown : Option ℚ) (trend : String) (st : LedgerState)
    (entryPrice : ℚ) (mp0 : Position) (rest : List Position)
    (hsel : (match side with | Side.UP => priceUp | Side.DOWN => priceDown) = some entryPrice)
    (h0 : ¬(entryPrice ≤ 0 ∨ entryPrice ≥ 1))
    (h1 : ¬(entryPrice < CONFIG.minEntryPrice ∨ entryPrice > CONFIG.maxEntryPrice))
    (h2 : ¬st.consecutiveLosses ≥ CONFIG.maxConsecutiveLosses)
    (h3 : st.position = none)
    (h4 : ¬jsOr st.dailyLoss 0 ≥ CONFIG.dailyLossLimit)
    (h5 : ¬(st.lastStopLossTime ≠ 0 ∧ (now - st.lastStopLossTime) / 60000 < CONFIG.cooldownMinutes))
    (h6 : ¬(st.lastEntryTime ≠ 0 ∧ now - st.lastEntryTime < jsOr CONFIG.entryCooldownSeconds 15 * 1000))
    (h7 : ¬(trend = "FALLING" ∧ side = Side.UP))
    (h8 : ¬(trend = "RISING" ∧ side = Side.DOWN))
    (hmk : st.positions.filter (fun p => decide (p.marketSlug = mslug)) = mp0 :: rest)
    (hopp : mp0.side ≠ side) :
    handleEntrySignal CONFIG now prob side mslug priceUp priceDown trend st
      = ((openPath CONFIG now side mslug entryPrice entryPrice
            (sizeFor CONFIG prob entryPrice st.balance)
            (flipPhase CONFIG now side mslug entryPrice st).1).1,
         (flipPhase CONFIG now side mslug entryPrice st).2
           ++ (openPath CONFIG now side mslug entryPrice entryPrice
                (sizeFor CONFIG prob entryPrice st.balance)
                (flipPhase CONFIG now side mslug entryPrice st).1).2)
    ∧ (flipPhase CONFIG now side mslug entryPrice st).2.length = (mp0 :: rest).length
    ∧ ∀ e ∈ (flipPhase CONFIG now side mslug entryPrice st).2,
        e.action = "FLIP_CLOSE" ∧ e.price = entryPrice := by
  have hlt1 : ¬entryPrice > 1 := by
    push_neg at h0
    linarith [h0.2]
  refine ⟨?_, ?_, ?_⟩
  · cases side with
    | UP =>
      have hsel' : priceUp = some entryPrice := hsel
      subst hsel'
      simp only [handleEntrySignal]
      rw [if_neg h0, if_neg hlt1, if_neg h1, if_neg h2, h3]
      simp only [Bool.false_eq_true, if_false]
      rw [if_neg h4, if_neg h5, if_neg h6]
      rw [if_neg (fun hc => h7 ⟨hc.1, rfl⟩), if_neg h8]
    | DOWN =>
      have hsel' : priceDown = some entryPrice := hsel
      subst hsel'
      simp only [handleEntrySignal]
      rw [if_neg h0, if_neg hlt1, if_neg h1, if_neg h2, h3]
      simp only [Bool.false_eq_true, if_false]
      rw [if_neg h4, if_neg h5, if_neg h6]
      rw [if_neg h7, if_neg (fun hc => h8 ⟨hc.1, rfl⟩)]
  · unfold flipPhase
    rw [hmk]
    simp only [if_pos hopp]
    rw [closeFold_len]
    simp
  · unfold flipPhase
    rw [hmk]
    simp only [if_pos hopp]
    exact closeFold_events CONFIG now entryPrice "FLIP_CLOSE" (mp0 :: rest) (st, [])
      (by intro e he; exact absurd he (by simp))

/-- The ledger state used to witness the flip behaviour. -/
def c4St : LedgerState := { defaultState CONFIG 0 with balance := 50, positions := [scenDPos] }

/-- Witness for `c4_amended`: a qualifying ENTER DOWN at priceDown 0.45 against
the held UP position flips it with one `FLIP_CLOSE` at 0.45 and proceeds to
the open path. -/
theorem c4_witness :
    scenDPos.side ≠ Side.DOWN
    ∧ c4St.positions.filter (fun p => decide (p.marketSlug = "m")) = [scenDPos]
    ∧ (handleEntrySignal CONFIG 1000 none Side.DOWN "m" (some (11/20)) (some (9/20))
          "NEUTRAL" c4St
        = ((openPath CONFIG 1000 Side.DOWN "m" (9/20) (9/20)
              (sizeFor CONFIG none (9/20) c4St.balance)
              (flipPhase CONFIG 1000 Side.DOWN "m" (9/20) c4St).1).1,
           (flipPhase CONFIG 1000 Side.DOWN "m" (9/20) c4St).2
             ++ (openPath CONFIG 1000 Side.DOWN "m" (9/20) (9/20)
                  (sizeFor CONFIG none (9/20) c4St.balance)
                  (flipPhase CONFIG 1000 Side.DOWN "m" (9/20) c4St).1).2)
      ∧ (flipPhase CONFIG 1000 Side.DOWN "m" (9/20) c4St).2.length = ([scenDPos] : List Position).length
      ∧ ∀ e ∈ (flipPhase CONFIG 1000 Side.DOWN "m" (9/20) c4St).2,
          e.action = "FLIP_CLOSE" ∧ e.price = 9/20) :=
  ⟨by decide, by decide,
   c4_amended 1000 none Side.DOWN "m" (some (11/20)) (some (9/20)) "NEUTRAL" c4St (9/20)
     scenDPos [] rfl (by decide) (by decide) (by decide) (by decide) (by decide) (by decide)
     (by decide) (by decide) (by decide) (by decide) (by decide)⟩

/-- C6 amended: the sizing computation never exceeds `maxBet`; in the Kelly
case (probability present and truthy, positive scaled Kelly fraction, and a
non-negative bankroll) the returned size also lies within `[0, balance]`.
The `minBet` fallback (non-positive Kelly fraction) and the `maxBet` base
unit (probability absent) are NOT clamped by the balance, so the full
guarantee of the claim fails (see the counterexample); the later open gate
is what rejects those unaffordable sizes. -/
theorem c6_amended (prob : Option ℚ) (np bal : ℚ) :
    sizeFor CONFIG prob np bal ≤ CONFIG.maxBet
    ∧ (0 ≤ bal → ∀ p, prob = some p → ¬p = 0 →
        0 < (p - (1 - p) / ((1 - np) / np)) * CONFIG.kellyFraction →
        0 ≤ sizeFor CONFIG prob np bal ∧ sizeFor CONFIG prob np bal ≤ bal) := by
  constructor
  · cases prob with
    | none => exact le_refl _
    | some p =>
      simp only [sizeFor]
      split_ifs <;> norm_num [CONFIG] at * <;> linarith
  · intro hbal p hp hp0 hf
    subst hp
    simp only [sizeFor]
    rw [if_pos hp0, if_pos hf]
    split_ifs <;> norm_num [CONFIG] at * <;>
      first
      | linarith
      | exact ⟨by linarith, by linarith⟩

/-- Witness for `c6_amended`: probability 0.7 at price 0.5 with bankroll 100
gives Kelly size 10, inside `[0, 100]` and at the `maxBet` cap. -/
theorem c6_witness :
    (0:ℚ) ≤ 100
    ∧ ¬(7:ℚ)/10 = 0
    ∧ 0 < ((7:ℚ)/10 - (1 - 7/10) / ((1 - 1/2) / (1/2))) * CONFIG.kellyFraction
    ∧ sizeFor CONFIG (some (7/10)) (1/2) 100 ≤ CONFIG.maxBet
    ∧ 0 ≤ sizeFor CONFIG (some (7/10)) (1/2) 100
    ∧ sizeFor CONFIG (some (7/10)) (1/2) 100 ≤ 100 :=
  ⟨by decide, by decide, by decide,
   (c6_amended (some (7/10)) (1/2) 100).1,
   ((c6_amended (some (7/10)) (1/2) 100).2 (by decide) (7/10) rfl (by decide) (by decide)).1,
   ((c6_amended (some (7/10)) (1/2) 100).2 (by decide) (7/10) rfl (by decide) (by decide)).2⟩

theorem resetDaily_positions (now : ℚ) (st : LedgerState) :
    (resetDailyLossIfNeeded now st).positions = st.positions := by
  simp only [resetDailyLossIfNeeded]
  split_ifs <;> rfl

theorem closePosition_positions_len (cfg : PaperConfig) (now : ℚ) (st : LedgerState)
    (pos : Position) (xp : ℚ) (reason : String) :
    ((closePosition cfg now st pos xp reason).1).positions.length ≤ st.positions.length := by
  simp only [closePosition]
  split_ifs <;> exact List.length_filter_le _ _

theorem closePosition_positions_sub (cfg : PaperConfig) (now : ℚ) (st : LedgerState)
    (pos : Position) (xp : ℚ) (reason : String) :
    ∀ q ∈ ((closePosition cfg now st pos xp reason).1).positions, q ∈ st.positions := by
  intro q hq
  simp only [closePosition] at hq
  split_ifs at hq <;> exact (List.mem_filter.mp hq).1

/-- Removing one position of market `m` does not disturb the sublist of
positions of other markets. -/
theorem filter_ne_aux (m : String) (pos : Position) (hpos : pos.marketSlug = m) :
    ∀ l : List Position,
      (l.filter (fun p => decide (p ≠ pos))).filter (fun p => decide (p.marketSlug ≠ m))
        = l.filter (fun p => decide (p.marketSlug ≠ m)) := by
  intro l
  induction l with
  | nil => rfl
  | cons a l ih =>
    by_cases ha : a = pos
    · subst ha
      simp only [List.filter_cons, decide_eq_true_eq, hpos]
      rw [if_neg (by simp), if_neg (by simp)]
      exact ih
    · simp only [List.filter_cons, decide_eq_true_eq]
      rw [if_pos (by simp [ha])]
      by_cases hm : a.marketSlug ≠ m
      · rw [List.filter_cons, if_pos (by simp [hm]), if_pos (by simp [hm]), ih]
      · rw [List.filter_cons, if_neg (by simp [hm]), if_neg (by simp [hm]), ih]

/-- Arming (replacing) one position of market `m` in place does not disturb
the sublist of positions of other markets. -/
theorem filter_map_replace (m : String) (pos pos1 : Position)
    (h0 : pos.marketSlug = m) (h1 : pos1.marketSlug = m) :
    ∀ l : List Position,
      (l.map (fun p => if p = pos then pos1 else p)).filter (fun p => decide (p.marketSlug ≠ m))
        = l.filter (fun p => decide (p.marketSlug ≠ m)) := by
  intro l
  induction l with
  | nil => rfl
  | cons a l ih =>
    simp only [List.map_cons]
    by_cases ha : a = pos
    · rw [if_pos ha, ha]
      simp only [List.filter_cons, decide_eq_true_eq]
      rw [if_neg (by simp [h1]), if_neg (by simp [h0])]
      exact ih
    · rw [if_neg ha]
      by_cases hm : a.marketSlug ≠ m
      · rw [List.filter_cons, List.filter_cons, if_pos (by simp [hm]), if_pos (by simp [hm]), ih]
      · rw [List.filter_cons, List.filter_cons, if_neg (by simp [hm]), if_neg (by simp [hm]), ih]

theorem closePosition_filter_eq (cfg : PaperConfig) (now : ℚ) (st : LedgerState)
    (pos : Position) (xp : ℚ) (reason : String) (m : String) (hpos : pos.marketSlug = m) :
    ((closePosition cfg now st pos xp reason).1).positions.filter
        (fun p => decide (p.marketSlug ≠ m))
      = st.positions.filter (fun p => decide (p.marketSlug ≠ m)) := by
  simp only [closePosition]
  split_ifs <;> exact filter_ne_aux m pos hpos _

theorem exitChecks_positions_len (cfg : PaperConfig) (now : ℚ) (st : LedgerState)
    (pos : Position) (price normPrice roiPct : ℚ) (timeLeftMin : Option ℚ) :
    ((exitChecks cfg now st pos price normPrice roiPct timeLeftMin).1).positions.length
      ≤ st.positions.length := by
  simp only [exitChecks]
  split_ifs <;> first
    | exact le_refl _
    | exact closePosition_positions_len _ _ _ _ _ _

theorem exitChecks_filter_eq (cfg : PaperConfig) (now : ℚ) (st : LedgerState)
    (pos : Position) (price normPrice roiPct : ℚ) (timeLeftMin : Option ℚ)
    (m : String) (hpos : pos.marketSlug = m) :
    ((exitChecks cfg now st pos price normPrice roiPct timeLeftMin).1).positions.filter
        (fun p => decide (p.marketSlug ≠ m))
      = st.positions.filter (fun p => decide (p.marketSlug ≠ m)) := by
  simp only [exitChecks]
  split_ifs <;> first
    | rfl
    | exact closePosition_filter_eq _ _ _ _ _ _ m hpos

theorem exitStep_positions_len (cfg : PaperConfig) (now : ℚ) (mslug : String)
    (priceUp priceDown timeLeftMin : Option ℚ) (st : LedgerState) (pos : Position) :
    ((exitStep cfg now mslug priceUp priceDown timeLeftMin st pos).1).positions.length
      ≤ st.positions.length := by
  by_cases h : pos.marketSlug ≠ mslug
  · simp only [exitStep, if_pos h]
    exact le_refl _
  · simp only [exitStep, if_neg h]
    rcases hp : (match pos.side with | Side.UP => priceUp | Side.DOWN => priceDown) with _ | price
    · simp only [hp]
      exact le_refl _
    · simp only [hp]
      split_ifs
      · refine le_trans (exitChecks_positions_len _ _ _ _ _ _ _ _) ?_
        exact le_of_eq (List.length_map _ _)
      · exact exitChecks_positions_len _ _ _ _ _ _ _ _

theorem exitStep_filter_eq (cfg : PaperConfig) (now : ℚ) (mslug : String)
    (priceUp priceDown timeLeftMin : Option ℚ) (st : LedgerState) (pos : Position) :
    ((exitStep cfg now mslug priceUp priceDown timeLeftMin st pos).1).positions.filter
        (fun p => decide (p.marketSlug ≠ mslug))
      = st.positions.filter (fun p => decide (p.marketSlug ≠ mslug)) := by
  by_cases h : pos.marketSlug ≠ mslug
  · simp only [exitStep, if_pos h]
  · have hpos : pos.marketSlug = mslug := not_not.mp h
    simp only [exitStep, if_neg h]
    rcases hp : (match pos.side with | Side.UP => priceUp | Side.DOWN => priceDown) with _ | price
    · simp only [hp]
    · simp only [hp]
      split_ifs
      · have hpos1 : ({ pos with hitBreakevenTrigger := true } : Position).marketSlug = mslug :=
          hpos
        rw [exitChecks_filter_eq _ _ _ _ _ _ _ _ mslug hpos1]
        exact filter_map_replace mslug pos _ hpos hpos1 _
      · exact exitChecks_filter_eq _ _ _ _ _ _ _ _ mslug hpos

theorem foldl_positions_le {α : Type} (f : LedgerState × List TradeEvent → α → LedgerState × List TradeEvent)
    (hf : ∀ acc a, ((f acc a).1).positions.length ≤ (acc.1).positions.length) :
    ∀ (l : List α) (acc : LedgerState × List TradeEvent),
      (((l.foldl f acc).1).positions.length ≤ (acc.1).positions.length) := by
  intro l
  induction l with
  | nil => intro acc; exact le_refl _
  | cons hd tl ih => intro acc; exact le_trans (ih (f acc hd)) (hf acc hd)

theorem foldl_filter_eq {α : Type} (m : String)
    (f : LedgerState × List TradeEvent → α → LedgerState × List TradeEvent)
    (hf : ∀ acc a, ((f acc a).1).positions.filter (fun p => decide (p.marketSlug ≠ m))
            = (acc.1).positions.filter (fun p => decide (p.marketSlug ≠ m))) :
    ∀ (l : List α) (acc : LedgerState × List TradeEvent),
      (((l.foldl f acc).1).positions.filter (fun p => decide (p.marketSlug ≠ m))
        = (acc.1).positions.filter (fun p => decide (p.marketSlug ≠ m))) := by
  intro l
  induction l with
  | nil => intro acc; rfl
  | cons hd tl ih => intro acc; exact (ih (f acc hd)).trans (hf acc hd)

theorem foldl_positions_sub {α : Type}
    (f : LedgerState × List TradeEvent → α → LedgerState × List TradeEvent)
    (hf : ∀ acc a q, q ∈ ((f acc a).1).positions → q ∈ (acc.1).positions) :
    ∀ (l : List α) (acc : LedgerState × List TradeEvent) (q : Position),
      q ∈ ((l.foldl f acc).1).positions → q ∈ (acc.1).positions := by
  intro l
  induction l with
  | nil => intro acc q hq; exact hq
  | cons hd tl ih => intro acc q hq; exact hf acc hd q (ih (f acc hd) q hq)

theorem checkExitConditions_positions_len (cfg : PaperConfig) (now : ℚ) (mslug : String)
    (priceUp priceDown timeLeftMin : Option ℚ) (st : LedgerState) :
    ((checkExitConditions cfg now mslug priceUp priceDown timeLeftMin st).1).positions.length
      ≤ st.positions.length := by
  simp only [checkExitConditions]
  split_ifs
  · exact le_refl _
  · exact foldl_positions_le _
      (fun acc pos => exitStep_positions_len cfg now mslug priceUp priceDown timeLeftMin acc.1 pos)
      st.positions (st, [])

theorem checkExitConditions_filter_eq (cfg : PaperConfig) (now : ℚ) (mslug : String)
    (priceUp priceDown timeLeftMin : Option ℚ) (st : LedgerState) :
    ((checkExitConditions cfg now mslug priceUp priceDown timeLeftMin st).1).positions.filter
        (fun p => decide (p.marketSlug ≠ mslug))
      = st.positions.filter (fun p => decide (p.marketSlug ≠ mslug)) := by
  simp only [checkExitConditions]
  split_ifs
  · rfl
  · exact foldl_filter_eq mslug _
      (fun acc pos => exitStep_filter_eq cfg now mslug priceUp priceDown timeLeftMin acc.1 pos)
      st.positions (st, [])

theorem checkResolution_positions_len (cfg : PaperConfig) (now : ℚ) (mslug : String)
    (isExpired : Bool) (strikePrice spotPrice : Option ℚ) (st : LedgerState) :
    ((checkResolution cfg now mslug isExpired strikePrice spotPrice st).1).positions.length
      ≤ st.positions.length := by
  simp only [checkResolution]
  split_ifs
  · exact le_refl _
  · cases isExpired <;> cases strikePrice <;> cases spotPrice <;>
      first
      | exact le_refl _
      | exact foldl_positions_le _
          (fun acc pos => by
            by_cases hm : pos.marketSlug ≠ mslug
            · simp only [if_pos hm]
              exact le_refl _
            · simp only [if_neg hm]
              exact closePosition_positions_len _ _ _ _ _ _)
          st.positions (st, [])

theorem checkResolution_filter_eq (cfg : PaperConfig) (now : ℚ) (mslug : String)
    (isExpired : Bool) (strikePrice spotPrice : Option ℚ) (st : LedgerState) :
    ((checkResolution cfg now mslug isExpired strikePrice spotPrice st).1).positions.filter
        (fun p => decide (p.marketSlug ≠ mslug))
      = st.positions.filter (fun p => decide (p.marketSlug ≠ mslug)) := by
  simp only [checkResolution]
  split_ifs
  · rfl
  · cases isExpired <;> cases strikePrice <;> cases spotPrice <;>
      first
      | rfl
      | exact foldl_filter_eq mslug _
          (fun acc pos => by
            by_cases hm : pos.marketSlug ≠ mslug
            · simp only [if_pos hm]
            · simp only [if_neg hm]
              exact closePosition_filter_eq _ _ _ _ _ _ mslug (not_not.mp hm))
          st.positions (st, [])

/-- C10: during a tick for market `m`, neither the exit evaluation nor the
expiry/settlement check closes or mutates any open position held on a
different market: the sublist of other-market positions (fields and order
included) is preserved exactly. -/
theorem c10_frame (now : ℚ) (mslug : String) (priceUp priceDown timeLeftMin : Option ℚ)
    (isExpired : Bool) (strikePrice spotPrice : Option ℚ) (st : LedgerState) :
    ((checkExitConditions CONFIG now mslug priceUp priceDown timeLeftMin st).1).positions.filter
        (fun p => decide (p.marketSlug ≠ mslug))
      = st.positions.filter (fun p => decide (p.marketSlug ≠ mslug))
    ∧ ((checkResolution CONFIG now mslug isExpired strikePrice spotPrice st).1).positions.filter
        (fun p => decide (p.marketSlug ≠ mslug))
      = st.positions.filter (fun p => decide (p.marketSlug ≠ mslug)) :=
  ⟨checkExitConditions_filter_eq CONFIG now mslug priceUp priceDown timeLeftMin st,
   checkResolution_filter_eq CONFIG now mslug isExpired strikePrice spotPrice st⟩

theorem flipPhase_positions_len (cfg : PaperConfig) (now : ℚ) (side : Side) (mslug : String)
    (newSidePrice : ℚ) (st : LedgerState) :
    ((flipPhase cfg now side mslug newSidePrice st).1).positions.length
      ≤ st.positions.length := by
  simp only [flipPhase]
  rcases hf : st.positions.filter (fun p => decide (p.marketSlug = mslug)) with _ | ⟨mp0, rest⟩
  · simp only [hf]
    exact le_refl _
  · simp only [hf]
    split_ifs
    · exact foldl_positions_le _
        (fun acc pos => closePosition_positions_len cfg now acc.1 pos newSidePrice "FLIP_CLOSE")
        (mp0 :: rest) (st, [])
    · exact le_refl _

theorem flipPhase_positions_sub (cfg : PaperConfig) (now : ℚ) (side : Side) (mslug : String)
    (newSidePrice : ℚ) (st : LedgerState) :
    ∀ q ∈ ((flipPhase cfg now side mslug newSidePrice st).1).positions, q ∈ st.positions := by
  intro q hq
  simp only [flipPhase] at hq
  rcases hf : st.positions.filter (fun p => decide (p.marketSlug = mslug)) with _ | ⟨mp0, rest⟩
  · simp only [hf] at hq
    exact hq
  · simp only [hf] at hq
    split_ifs at hq
    · exact foldl_positions_sub _
        (fun acc pos q => closePosition_positions_sub cfg now acc.1 pos newSidePrice "FLIP_CLOSE" q)
        (mp0 :: rest) (st, []) q hq
    · exact hq

theorem openPath_positions_le2 (now : ℚ) (side : Side) (mslug : String)
    (entryPrice normalizedPrice tradeAmount : ℚ) (st : LedgerState)
    (hin : st.positions.length ≤ 2) :
    ((openPath CONFIG now side mslug entryPrice normalizedPrice tradeAmount st).1).positions.length
      ≤ 2 := by
  have hj : jsOr CONFIG.maxConcurrentPositions 2 = 2 := rfl
  simp only [openPath, hj]
  split_ifs with h
  · simp only [List.length_append, List.length_cons, List.length_nil]
    have hlt : st.positions.length < 2 := by exact_mod_cast h.1
    omega
  · exact hin

theorem handleEntry_positions_le2 (now : ℚ) (prob : Option ℚ) (side : Side) (mslug : String)
    (priceUp priceDown : Option ℚ) (trend : String) (st : LedgerState)
    (hin : st.positions.length ≤ 2) :
    ((handleEntrySignal CONFIG now prob side mslug priceUp priceDown trend st).1).positions.length
      ≤ 2 := by
  cases side with
  | UP =>
    rcases priceUp with _ | p
    · exact hin
    · simp only [handleEntrySignal]
      split_ifs <;>
        first
        | exact hin
        | exact openPath_positions_le2 _ _ _ _ _ _ _
            (le_trans (flipPhase_positions_len CONFIG now Side.UP mslug p st) hin)
  | DOWN =>
    rcases priceDown with _ | p
    · exact hin
    · simp only [handleEntrySignal]
      split_ifs <;>
        first
        | exact hin
        | exact openPath_positions_le2 _ _ _ _ _ _ _
            (le_trans (flipPhase_positions_len CONFIG now Side.DOWN mslug p st) hin)

theorem update_positions_le2 (now : ℚ) (inp : TickInput) (st : LedgerState)
    (hin : st.positions.length ≤ 2) :
    ((update CONFIG now inp st).1).positions.length ≤ 2 := by
  have h0 : (resetDailyLossIfNeeded now st).positions.length = st.positions.length := by
    rw [resetDaily_positions]
  have h1 := checkResolution_positions_len CONFIG now inp.marketSlug inp.isExpired
    (jsOrNull inp.strikePrice) (jsOrNull inp.spotPrice) (resetDailyLossIfNeeded now st)
  have h2 := checkExitConditions_positions_len CONFIG now inp.marketSlug inp.priceUp inp.priceDown
    inp.timeLeftMin (checkResolution CONFIG now inp.marketSlug inp.isExpired
      (jsOrNull inp.strikePrice) (jsOrNull inp.spotPrice) (resetDailyLossIfNeeded now st)).1
  simp only [update]
  split_ifs
  · exact handleEntry_positions_le2 now inp.probability inp.side inp.marketSlug inp.priceUp
      inp.priceDown inp.trend _ (by omega)
  · exact le_trans (le_trans h2 h1) (by omega)

/-- C5 amended: the concurrency bound does hold — every reachable state holds
at most `maxConcurrentPositions` (= 2) open positions — but the same-market
same-side uniqueness does not (see the counterexample): stacking a second
same-side position on one market is reachable. -/
theorem c5_amended (t : ℚ) (s : LedgerState) (h : ReachableAt t s) :
    s.positions.length ≤ 2 := by
  induction h with
  | init t0 => simp [defaultState]
  | step t' inp hr hlt ih => exact update_positions_le2 t' inp _ ih

/-- Witness for `c5_amended` at the reachable state after one opening tick. -/
theorem c5_witness :
    ((update CONFIG (tickTime 1) tickE10 (defaultState CONFIG (tickTime 0))).1).positions.length
      ≤ 2 :=
  c5_amended (tickTime 1) _
    (ReachableAt.step (tickTime 1) tickE10 (ReachableAt.init (tickTime 0)) (by norm_num [tickTime]))

/-- C7 amended: the entry path accepts only quotes strictly inside `(0, 1)`:
any selected quote `>= 1` (hence every cents-scale quote) is rejected as a
no-op BEFORE the (dead) normalization at line 264, and every position the
entry path stores carries `entryPrice` equal to the raw quote, which lies in
`(0, 1)`.  Cents-scale quotes are never normalized on entry. -/
theorem c7_amended (now : ℚ) (prob : Option ℚ) (side : Side) (mslug : String)
    (priceUp priceDown : Option ℚ) (trend : String) (st : LedgerState) (p : ℚ)
    (hsel : (match side with | Side.UP => priceUp | Side.DOWN => priceDown) = some p) :
    (p ≥ 1 → handleEntrySignal CONFIG now prob side mslug priceUp priceDown trend st = (st, []))
    ∧ ∀ q ∈ (handleEntrySignal CONFIG now prob side mslug priceUp priceDown trend st).1.positions,
        q ∈ st.positions ∨ (0 < p ∧ p < 1 ∧ q.entryPrice = p) := by
  cases side with
  | UP =>
    have hsel' : priceUp = some p := hsel
    subst hsel'
    constructor
    · intro hp1
      simp only [handleEntrySignal]
      rw [if_pos (Or.inr hp1)]
    · intro q hq
      simp only [handleEntrySignal] at hq
      by_cases h0 : p ≤ 0 ∨ p ≥ 1
      · rw [if_pos h0] at hq
        exact Or.inl hq
      · have hp0 : 0 < p := lt_of_not_ge (fun hge => h0 (Or.inl hge))
        have hp1 : p < 1 := lt_of_not_ge (fun hge => h0 (Or.inr hge))
        have hlt1 : ¬p > 1 := by linarith
        rw [if_neg h0, if_neg hlt1] at hq
        split_ifs at hq <;>
          first
          | exact Or.inl hq
          | (simp only [openPath] at hq
             split_ifs at hq with hgate
             · rcases List.mem_append.mp hq with hql | hqr
               · exact Or.inl (flipPhase_positions_sub CONFIG now Side.UP mslug p st q hql)
               · rcases List.mem_singleton.mp hqr with rfl
                 exact Or.inr ⟨hp0, hp1, rfl⟩
             · exact Or.inl (flipPhase_positions_sub CONFIG now Side.UP mslug p st q hq))
  | DOWN =>
    have hsel' : priceDown = some p := hsel
    subst hsel'
    constructor
    · intro hp1
      simp only [handleEntrySignal]
      rw [if_pos (Or.inr hp1)]
    · intro q hq
      simp only [handleEntrySignal] at hq
      by_cases h0 : p ≤ 0 ∨ p ≥ 1
      · rw [if_pos h0] at hq
        exact Or.inl hq
      · have hp0 : 0 < p := lt_of_not_ge (fun hge => h0 (Or.inl hge))
        have hp1 : p < 1 := lt_of_not_ge (fun hge => h0 (Or.inr hge))
        have hlt1 : ¬p > 1 := by linarith
        rw [if_neg h0, if_neg hlt1] at hq
        split_ifs at hq <;>
          first
          | exact Or.inl hq
          | (simp only [openPath] at hq
             split_ifs at hq with hgate
             · rcases List.mem_append.mp hq with hql | hqr
               · exact Or.inl (flipPhase_positions_sub CONFIG now Side.DOWN mslug p st q hql)
               · rcases List.mem_singleton.mp hqr with rfl
                 exact Or.inr ⟨hp0, hp1, rfl⟩
             · exact Or.inl (flipPhase_positions_sub CONFIG now Side.DOWN mslug p st q hq))

/-- Witness for `c7_amended`: the cents-scale quote 50 is rejected as a no-op. -/
theorem c7_witness :
    ((50:ℚ) ≥ 1)
    ∧ handleEntrySignal CONFIG (tickTime 1) none Side.UP "m" (some 50) none "NEUTRAL"
        (defaultState CONFIG (tickTime 0)) = (defaultState CONFIG (tickTime 0), []) :=
  ⟨by decide,
   (c7_amended (tickTime 1) none Side.UP "m" (some 50) none "NEUTRAL"
      (defaultState CONFIG (tickTime 0)) 50 rfl).1 (by decide)⟩
